import Mathlib

/-!
# RC4 cipher (`rc4-rs`): shallow embedding and verification

Embedding of `src/lib.rs`. The Rust `u8` type is modelled as `Fin 256`
(`Fin` addition is `(a + b) % 256`, which is exactly `u8::wrapping_add`);
the 256-entry permutation array `state: [u8; 256]` is modelled as a total
function `Fin 256 → Fin 256`; byte slices are modelled as `List (Fin 256)`.
The in-place mutation of the `RC4` struct is modelled by explicit state
passing: each method returns the updated state alongside its result.
-/

set_option maxRecDepth 8000

namespace RC4Rs

/-- A `u8` value. -/
abbrev Byte := Fin 256

/-- `u8` XOR, as in `*byte ^= self.pseudo_random_generation()`. -/
def xorByte (a b : Byte) : Byte :=
  ⟨a.val ^^^ b.val, by
    have h : a.val ^^^ b.val < 2 ^ 8 := Nat.xor_lt_two_pow a.isLt b.isLt
    simpa using h⟩

/-- `self.state.swap(a, b)`: the permutation array with the entries at
indices `a` and `b` exchanged. -/
def swapFn (st : Byte → Byte) (a b : Byte) : Byte → Byte :=
  fun x => if x = a then st b else if x = b then st a else st x

/-- The first `n` elements produced by `key.iter().cycle()`.
Rust's `Iterator::cycle` on an empty iterator yields an empty iterator,
so the result is empty when `key` is empty; otherwise element `i` of the
cycled stream is `key[i % key.len()]`. -/
def cycleTake (key : List Byte) (n : Nat) : List Byte :=
  if key.isEmpty then []
  else (List.range n).map fun i => key.getD (i % key.length) 0

/-- The `RC4` struct: permutation array `state` and the two PRGA
counters `i` and `j`. -/
structure RC4 where
  state : Byte → Byte
  i : Byte
  j : Byte

/-- The body of the KSA loop
`for (i, key) in state_index_range.zip(key.iter().cycle())`:
`j = j.wrapping_add(self.state[i]).wrapping_add(*key)` followed by
`self.state.swap(i, j as usize)`.  The accumulator carries the
permutation array and the local counter `j`. -/
def ksaStep (acc : (Byte → Byte) × Byte) (p : Byte × Byte) : (Byte → Byte) × Byte :=
  let j := acc.2 + acc.1 p.1 + p.2
  (swapFn acc.1 p.1 j, j)

/-- `fn key_scheduling_algorithm(&mut self, key: &[u8])`: first the loop
setting `*state = index as u8` (the identity permutation), then the loop
over `(0..256).zip(key.iter().cycle())` folding `ksaStep` from `j = 0`.
The loop index `i` ranges over `0..256`, so it is represented directly
as `Fin 256` via `List.finRange 256`. Returns the final permutation
array together with the final value of the local counter `j`. -/
def key_scheduling_algorithm (key : List Byte) : (Byte → Byte) × Byte :=
  ((List.finRange 256).zip (cycleTake key 256)).foldl ksaStep (fun x => x, 0)

/-- `pub fn new(key: &[u8]) -> Self`: state zero-initialised, `i = 0`,
`j = 0`, then the KSA is run on the state (the KSA's `j` is a local
variable; the struct fields `i` and `j` remain 0). -/
def RC4.new (key : List Byte) : RC4 :=
  { state := (key_scheduling_algorithm key).1, i := 0, j := 0 }

/-- `fn pseudo_random_generation(&mut self) -> u8`: one PRGA step,
returning the keystream byte and the updated struct. -/
def pseudo_random_generation (r : RC4) : Byte × RC4 :=
  let i := r.i + 1
  let j := r.j + r.state i
  let st := swapFn r.state i j
  let keystream_index := st i + st j
  (st keystream_index, { state := st, i := i, j := j })

/-- `pub fn xor_keystream_with(&mut self, data: &mut [u8])`: XOR each
byte of `data`, in order, with the next keystream byte. Returns the
transformed bytes and the updated struct. -/
def xor_keystream_with : RC4 → List Byte → List Byte × RC4
  | r, [] => ([], r)
  | r, b :: rest =>
    let p := pseudo_random_generation r
    let q := xor_keystream_with p.2 rest
    (xorByte b p.1 :: q.1, q.2)

/-- Sequential application: feed a list of chunks through the cipher,
one `xor_keystream_with` call per chunk, on the same threaded state. -/
def applyChunks : RC4 → List (List Byte) → List (List Byte) × RC4
  | r, [] => ([], r)
  | r, c :: cs =>
    let p := xor_keystream_with r c
    let q := applyChunks p.2 cs
    (p.1 :: q.1, q.2)

/-- Modelled from the spec: addition of two byte-range values computed
explicitly modulo 256 (the spec's `(x + y) mod 256`). -/
def addMod256 (a b : Byte) : Byte :=
  ⟨(a.val + b.val) % 256, Nat.mod_lt _ (by decide)⟩

/-- Modelled from the spec (§4.1 NextKeystreamByte): the five PRGA steps
with every addition written as explicit mod-256 arithmetic. -/
def prgaSpec (r : RC4) : Byte × RC4 :=
  let cursor_i := addMod256 r.i 1
  let cursor_j := addMod256 r.j (r.state cursor_i)
  let st := swapFn r.state cursor_i cursor_j
  let output_index := addMod256 (st cursor_i) (st cursor_j)
  (st output_index, { state := st, i := cursor_i, j := cursor_j })

/-- Modelled from the spec (§4.1 Initialize): identity permutation, then
256 iterations for `i` from 0 to 255 computing
`j = (j + permutation[i] + key[i mod key_length]) mod 256` and swapping
`permutation[i]` with `permutation[j]`. -/
def ksaSpec (key : List Byte) : (Byte → Byte) × Byte :=
  (List.finRange 256).foldl
    (fun acc i =>
      let j := addMod256 (addMod256 acc.2 (acc.1 i))
        (key.getD (i.val % key.length) 0)
      (swapFn acc.1 i j, j))
    (fun x => x, 0)

/-- `self.state[n]` for a `usize` index `n`, modelling Rust's
bounds-checked array indexing: an out-of-range index panics, which is
modelled as `none`. -/
def checkedGet (st : Byte → Byte) (n : Nat) : Option Byte :=
  if h : n < 256 then some (st ⟨n, h⟩) else none

/-- `self.state.swap(a, b)` with both `usize` indices bounds-checked. -/
def checkedSwap (st : Byte → Byte) (a b : Nat) : Option (Byte → Byte) :=
  if ha : a < 256 then
    if hb : b < 256 then some (swapFn st ⟨a, ha⟩ ⟨b, hb⟩) else none
  else none

/-- The PRGA with every array access bounds-checked; each index is a `u8`
value cast to `usize` (`as usize` in the source, here `Fin.val`). -/
def pseudo_random_generation_checked (r : RC4) : Option (Byte × RC4) := do
  let i := r.i + 1
  let si ← checkedGet r.state i.val
  let j := r.j + si
  let st ← checkedSwap r.state i.val j.val
  let si2 ← checkedGet st i.val
  let sj2 ← checkedGet st j.val
  let keystream_index := si2 + sj2
  let out ← checkedGet st keystream_index.val
  pure (out, { state := st, i := i, j := j })

/-- One KSA iteration with every array access bounds-checked; the loop
index is the raw `usize` produced by the range `0..256`. -/
def ksaStepChecked (acc : Option ((Byte → Byte) × Byte)) (p : Nat × Byte) :
    Option ((Byte → Byte) × Byte) := do
  let a ← acc
  let si ← checkedGet a.1 p.1
  let j := a.2 + si + p.2
  let st ← checkedSwap a.1 p.1 j.val
  pure (st, j)

/-- The KSA with every array access bounds-checked. -/
def key_scheduling_algorithm_checked (key : List Byte) :
    Option ((Byte → Byte) × Byte) :=
  ((List.range 256).zip (cycleTake key 256)).foldl ksaStepChecked
    (some (fun x => x, 0))

/-- Wrapping XOR on bytes is an involution. -/
theorem xorByte_xorByte (a b : Byte) : xorByte (xorByte a b) b = a := by
  apply Fin.ext
  simp [xorByte, Nat.xor_cancel_right]

/-- Applying the keystream twice from two identical starting states
restores the data: the keystream bytes drawn depend only on the state,
never on the data. -/
theorem xor_keystream_with_involutive (r : RC4) (data : List Byte) :
    (xor_keystream_with r (xor_keystream_with r data).1).1 = data := by
  induction data generalizing r with
  | nil => rfl
  | cons b rest ih => simp [xor_keystream_with, xorByte_xorByte, ih]

/-- C1: for every key of at least one byte and every plaintext, building a
state from the key and applying the keystream, then building a second
fresh state from the identical key bytes and applying the keystream to
the result, returns the original plaintext bytes unchanged. -/
theorem roundtrip_recovers_plaintext (key : List Byte) (_h : key ≠ [])
    (data : List Byte) :
    (xor_keystream_with (RC4.new key)
      (xor_keystream_with (RC4.new key) data).1).1 = data :=
  xor_keystream_with_involutive (RC4.new key) data

/-- Witness for C1 at key `"Key"` and plaintext `[1, 2, 3]`. -/
theorem roundtrip_recovers_plaintext_witness :
    (xor_keystream_with (RC4.new [75, 101, 121])
      (xor_keystream_with (RC4.new [75, 101, 121]) [1, 2, 3]).1).1 = [1, 2, 3] :=
  roundtrip_recovers_plaintext [75, 101, 121] (by decide) [1, 2, 3]

/-- The keystream is continuous across calls: processing `l₁ ++ l₂` in one
call equals processing `l₁` and then `l₂` on the carried-over state. -/
theorem xor_keystream_with_append (r : RC4) (l₁ l₂ : List Byte) :
    xor_keystream_with r (l₁ ++ l₂) =
      ((xor_keystream_with r l₁).1 ++
         (xor_keystream_with (xor_keystream_with r l₁).2 l₂).1,
        (xor_keystream_with (xor_keystream_with r l₁).2 l₂).2) := by
  induction l₁ generalizing r with
  | nil => rfl
  | cons b rest ih => simp [xor_keystream_with, ih]

/-- C5: applying the keystream chunk by chunk on one threaded state
produces, once concatenated, the same bytes and the same final state as
applying it once to the whole input. -/
theorem chunked_processing_eq_whole (r : RC4) (chunks : List (List Byte)) :
    (applyChunks r chunks).1.flatten = (xor_keystream_with r chunks.flatten).1 ∧
    (applyChunks r chunks).2 = (xor_keystream_with r chunks.flatten).2 := by
  induction chunks generalizing r with
  | nil => exact ⟨rfl, rfl⟩
  | cons c cs ih =>
    constructor <;>
      simp [applyChunks, xor_keystream_with_append, (ih _).1, (ih _).2]

/-- C8: zero-length data returns zero-length output and leaves the whole
state (permutation and both counters) untouched: no keystream byte is
generated. -/
theorem xor_keystream_with_nil (r : RC4) : xor_keystream_with r [] = ([], r) :=
  rfl

/-- `Fin 256` addition is the spec's explicit mod-256 addition. -/
theorem byte_add_eq_addMod256 (a b : Byte) : a + b = addMod256 a b :=
  Fin.ext (by simp [addMod256, Fin.val_add])

/-- C4: every keystream-byte generation call performs exactly the five
PRGA steps the spec lists, with every addition computed as wrapping
mod-256 arithmetic (total, no error or trap). -/
theorem prga_matches_spec (r : RC4) : pseudo_random_generation r = prgaSpec r := by
  simp only [pseudo_random_generation, prgaSpec, ← byte_add_eq_addMod256]

/-- Folding the KSA step over `i` zipped with `g i` equals folding the
spec-shaped step that applies `g` to the loop index directly. -/
theorem ksa_foldl_zip_map (g : Byte → Byte) (l : List Byte) :
    ∀ acc : (Byte → Byte) × Byte,
      (l.zip (l.map g)).foldl ksaStep acc =
        l.foldl
          (fun acc i =>
            let j := addMod256 (addMod256 acc.2 (acc.1 i)) (g i)
            (swapFn acc.1 i j, j))
          acc := by
  induction l with
  | nil => intro acc; rfl
  | cons a l ih =>
    intro acc
    have hstep : ksaStep acc (a, g a) =
        (let j := addMod256 (addMod256 acc.2 (acc.1 a)) (g a)
         (swapFn acc.1 a j, j)) := by
      simp [ksaStep, ← byte_add_eq_addMod256]
    simp only [List.map_cons, List.zip_cons_cons, List.foldl_cons, ih, hstep]

/-- For a non-empty key, the source KSA (zip with the cycled key) equals
the spec KSA (key indexed modulo the key length), final `j` included. -/
theorem ksa_eq_spec (key : List Byte) (h : key ≠ []) :
    key_scheduling_algorithm key = ksaSpec key := by
  have hne : key.isEmpty = false := by simpa [List.isEmpty_iff] using h
  have hcy : cycleTake key 256 =
      (List.finRange 256).map fun i => key.getD (i.val % key.length) 0 := by
    rw [cycleTake, hne]
    simp only [if_neg Bool.false_ne_true]
    rw [← List.map_coe_finRange 256, List.map_map]
    exact List.map_congr_left fun a _ => rfl
  rw [key_scheduling_algorithm, hcy, ksa_foldl_zip_map, ksaSpec]

/-- C3: for every non-empty key, construction runs exactly the specified
KSA — identity permutation, then 256 iterations of
`j = (j + permutation[i] + key[i mod key_length]) mod 256` and a swap —
and returns the state with both keystream counters equal to 0. -/
theorem ksa_matches_spec (key : List Byte) (h : key ≠ []) :
    (RC4.new key).state = (ksaSpec key).1 ∧
    (RC4.new key).i = 0 ∧ (RC4.new key).j = 0 :=
  ⟨congrArg Prod.fst (ksa_eq_spec key h), rfl, rfl⟩

/-- Witness for C3 at key `"Key"`. -/
theorem ksa_matches_spec_witness :
    (RC4.new [75, 101, 121]).state = (ksaSpec [75, 101, 121]).1 ∧
    (RC4.new [75, 101, 121]).i = 0 ∧ (RC4.new [75, 101, 121]).j = 0 :=
  ksa_matches_spec [75, 101, 121] (by decide)

/-- C9: the empty key makes the KSA loop run zero iterations (cycling an
empty iterator is empty), so construction succeeds with the identity
permutation and both counters zero. -/
theorem new_empty_key : RC4.new [] = { state := fun x => x, i := 0, j := 0 } :=
  rfl

/-- `swapFn st a b` is `st` composed with the transposition of `a` and
`b`. -/
theorem swapFn_eq_comp (st : Byte → Byte) (a b : Byte) :
    swapFn st a b = st ∘ (Equiv.swap a b) := by
  funext x
  by_cases hxa : x = a <;> by_cases hxb : x = b <;>
    simp [swapFn, Equiv.swap_apply_def, hxa, hxb]
  intro h
  rw [h]

/-- Swapping two entries preserves bijectivity of the permutation. -/
theorem bijective_swapFn {st : Byte → Byte} (h : Function.Bijective st)
    (a b : Byte) : Function.Bijective (swapFn st a b) := by
  rw [swapFn_eq_comp]
  exact h.comp (Equiv.swap a b).bijective

/-- Folding KSA steps preserves bijectivity of the permutation. -/
theorem bijective_ksa_foldl (l : List (Byte × Byte)) :
    ∀ acc : (Byte → Byte) × Byte, Function.Bijective acc.1 →
      Function.Bijective (l.foldl ksaStep acc).1 := by
  induction l with
  | nil => exact fun acc h => h
  | cons p l ih =>
    intro acc h
    rw [List.foldl_cons]
    exact ih (ksaStep acc p) (bijective_swapFn h p.1 _)

/-- The permutation is a bijection right after construction. -/
theorem bijective_new_state (key : List Byte) :
    Function.Bijective (RC4.new key).state :=
  bijective_ksa_foldl _ _ Function.bijective_id

/-- One PRGA step preserves bijectivity of the permutation. -/
theorem bijective_prga {r : RC4} (h : Function.Bijective r.state) :
    Function.Bijective (pseudo_random_generation r).2.state :=
  bijective_swapFn h (r.i + 1) (r.j + r.state (r.i + 1))

/-- Applying the keystream preserves bijectivity of the permutation. -/
theorem bijective_xor_keystream {r : RC4} (h : Function.Bijective r.state)
    (data : List Byte) :
    Function.Bijective (xor_keystream_with r data).2.state := by
  induction data generalizing r with
  | nil => exact h
  | cons b rest ih => exact ih (bijective_prga h)

/-- C6: the permutation array is a bijection of the byte range (each of
the 256 values occurs exactly once) immediately after construction, and
every keystream-generation and keystream-application call preserves
that invariant. -/
theorem permutation_always_bijective (key : List Byte) (r : RC4)
    (h : Function.Bijective r.state) (data : List Byte) :
    Function.Bijective (RC4.new key).state ∧
    Function.Bijective (pseudo_random_generation r).2.state ∧
    Function.Bijective (xor_keystream_with r data).2.state :=
  ⟨bijective_new_state key, bijective_prga h, bijective_xor_keystream h data⟩

/-- Witness for C6 at the state with the identity permutation. -/
theorem permutation_always_bijective_witness :
    Function.Bijective (RC4.new []).state ∧
    Function.Bijective
      (pseudo_random_generation { state := fun x => x, i := 0, j := 0 }).2.state ∧
    Function.Bijective
      (xor_keystream_with { state := fun x => x, i := 0, j := 0 } [5]).2.state :=
  permutation_always_bijective [] { state := fun x => x, i := 0, j := 0 }
    Function.bijective_id [5]

/-- The cycled key stream only depends on the first 256 key bytes. -/
theorem cycleTake_take_256 (key : List Byte) (h : 256 < key.length) :
    cycleTake key 256 = cycleTake (key.take 256) 256 := by
  have h0 : key.isEmpty = false := by
    cases key with
    | nil => simp at h
    | cons a l => rfl
  have h1 : (key.take 256).isEmpty = false := by
    cases key with
    | nil => simp at h
    | cons a l => rfl
  have hlen : (key.take 256).length = 256 := by
    simp [List.length_take]
    omega
  rw [cycleTake, cycleTake, h0, h1]
  simp only [if_neg Bool.false_ne_true]
  apply List.map_congr_left
  intro n hn
  have hn' : n < 256 := List.mem_range.mp hn
  rw [hlen]
  rw [Nat.mod_eq_of_lt hn', Nat.mod_eq_of_lt (by omega)]
  simp only [List.getD, List.get?_eq_getElem?]
  rw [List.getElem?_take_of_lt hn']

/-- C7: a key longer than 256 bytes yields exactly the same cipher state
as its first 256 bytes; the trailing key bytes are ignored without
error. -/
theorem new_long_key_eq_truncated (key : List Byte) (h : 256 < key.length) :
    RC4.new key = RC4.new (key.take 256) := by
  rw [RC4.new, RC4.new, key_scheduling_algorithm, key_scheduling_algorithm,
    cycleTake_take_256 key h]

/-- Witness for C7 at a 257-byte key of zeros. -/
theorem new_long_key_eq_truncated_witness :
    RC4.new (List.replicate 257 (0 : Byte)) =
      RC4.new ((List.replicate 257 (0 : Byte)).take 256) :=
  new_long_key_eq_truncated (List.replicate 257 0) (by simp)

/-- The bounds-checked PRGA never fails and agrees with the PRGA. -/
theorem prga_checked_eq (r : RC4) :
    pseudo_random_generation_checked r = some (pseudo_random_generation r) := by
  simp [pseudo_random_generation_checked, pseudo_random_generation,
    checkedGet, checkedSwap, Fin.is_lt, Fin.eta]

/-- One bounds-checked KSA step never fails and agrees with the KSA
step, since the loop index is below 256 and the swap target is a `u8`
value. -/
theorem ksa_step_checked_eq (acc : (Byte → Byte) × Byte) (p : Byte × Byte) :
    ksaStepChecked (some acc) (p.1.val, p.2) = some (ksaStep acc p) := by
  simp [ksaStepChecked, ksaStep, checkedGet, checkedSwap, Fin.is_lt, Fin.eta]

/-- Folding bounds-checked KSA steps never fails. -/
theorem ksa_checked_foldl (l : List (Byte × Byte)) :
    ∀ acc : (Byte → Byte) × Byte,
      (l.map (fun p => (p.1.val, p.2))).foldl ksaStepChecked (some acc) =
        some (l.foldl ksaStep acc) := by
  induction l with
  | nil => intro acc; rfl
  | cons p l ih =>
    intro acc
    rw [List.map_cons, List.foldl_cons, List.foldl_cons, ksa_step_checked_eq]
    exact ih (ksaStep acc p)

/-- The bounds-checked KSA never fails and agrees with the KSA. -/
theorem ksa_checked_eq (key : List Byte) :
    key_scheduling_algorithm_checked key = some (key_scheduling_algorithm key) := by
  rw [key_scheduling_algorithm_checked, key_scheduling_algorithm,
    show (List.range 256) = (List.finRange 256).map Fin.val from
      (List.map_coe_finRange 256).symm,
    List.zip_map_left,
    show Prod.map Fin.val (id : Byte → Byte) =
        (fun p : Byte × Byte => (p.1.val, p.2)) from funext fun p => rfl]
  exact ksa_checked_foldl _ _

/-- C10: every permutation-array access in key scheduling and keystream
generation is within the array bound 256, so the bounds-checked variants
of both operations never fail and agree with the operations themselves:
no out-of-bounds access or panic is possible for any key or state. -/
theorem no_out_of_bounds_access (key : List Byte) (r : RC4) :
    key_scheduling_algorithm_checked key = some (key_scheduling_algorithm key) ∧
    pseudo_random_generation_checked r = some (pseudo_random_generation r) :=
  ⟨ksa_checked_eq key, prga_checked_eq r⟩

set_option maxRecDepth 100000 in
set_option maxHeartbeats 4000000 in
/-- C2: the three Wikipedia test vectors. Key `"Key"` with plaintext
`"Plaintext"` gives `BB F3 16 E8 D9 40 AF 0A D3`; key `"Wiki"` with
`"pedia"` gives `10 21 BF 04 20`; key `"Secret"` with
`"Attack at dawn"` gives `45 A0 1F 64 5F C3 5B 38 35 52 54 4B 9B F5`
(all values below in decimal). -/
theorem wikipedia_test_vectors :
    (xor_keystream_with (RC4.new [75, 101, 121])
      [80, 108, 97, 105, 110, 116, 101, 120, 116]).1 =
        [187, 243, 22, 232, 217, 64, 175, 10, 211] ∧
    (xor_keystream_with (RC4.new [87, 105, 107, 105])
      [112, 101, 100, 105, 97]).1 = [16, 33, 191, 4, 32] ∧
    (xor_keystream_with (RC4.new [83, 101, 99, 114, 101, 116])
      [65, 116, 116, 97, 99, 107, 32, 97, 116, 32, 100, 97, 119, 110]).1 =
        [69, 160, 31, 100, 95, 195, 91, 56, 53, 82, 84, 75, 155, 245] :=
  ⟨by decide, by decide, by decide⟩

end RC4Rs
